import Mathlib

/-!
Verification of the sunset-time estimation routine `sunset_time` from the
notebook `post.ipynb`.  The numerical pipeline is embedded shallowly:

* UTC instants are rationals measured in hours since 00:00 UTC of some epoch;
* IEEE floating-point values that may be NaN are `Option ℚ`, with `none`
  playing the role of NaN (every comparison against NaN is false, and NaN
  propagates through arithmetic);
* the external astropy ephemeris (solar altitude at a position and UTC
  instant) is an explicit function parameter;
* the notebook-global `tzs` timezone table is an explicit list parameter,
  and a timezone is its (instant-dependent, hence daylight-saving-capable)
  UTC-offset function;
* the uncaught `IndexError` that Python would raise when a winning position
  index lies outside the `tzs` table is modelled by an `Option` result.
-/

/-- A floating-point value: `none` models IEEE NaN, `some q` a finite value. -/
abbrev FV := Option ℚ

/-- IEEE strict less-than on possibly-NaN values: any comparison involving
NaN is false. -/
def fvLt : FV → FV → Bool
  | some a, some b => decide (a < b)
  | _, _ => false

/-- Squaring (`a**2` in the source), propagating NaN. -/
def fvSq : FV → FV
  | some a => some (a * a)
  | none => none

/-- Subtraction, propagating NaN. -/
def fvSub : FV → FV → FV
  | some a, some b => some (a - b)
  | _, _ => none

/-- numpy `linspace a b n`: `n` evenly spaced values from `a` to `b` with
both endpoints included (for `n ≥ 2` the step is `(b - a)/(n - 1)`);
`linspace a b 1 = [a]` and `linspace a b 0 = []`, as in numpy. -/
def linspace (a b : ℚ) (n : ℕ) : List ℚ :=
  if n = 1 then [a]
  else (List.range n).map (fun k : ℕ => a + (b - a) * (k : ℚ) / ((n : ℚ) - 1))

/-- The grid of UTC instants searched for sunset:
`time_grid = time + np.linspace(0, 24, n_time) * u.hour`, in hours. -/
def time_grid (time : ℚ) (n_time : ℕ) : List ℚ :=
  (linspace 0 24 n_time).map (fun h => time + h)

/-- A geographic position (latitude and longitude in degrees); either
coordinate may be missing/NaN. -/
structure Position where
  lat : FV
  lon : FV
deriving DecidableEq

/-- A timezone, given by its total UTC offset in hours (daylight saving
included) as a function of the UTC instant.  An instant-dependent offset
models daylight-saving rules; a fixed-offset zone is the special case of a
constant function. -/
structure Timezone where
  offsetAt : ℚ → ℚ

/-- pytz `utc.localize(t).astimezone(tz)`: the local wall-clock time of the
UTC instant `t` in zone `tz`, i.e. `t` shifted by the offset in effect at
`t` itself. -/
def toLocal (tz : Timezone) (t : ℚ) : ℚ := t + tz.offsetAt t

/-- scipy `argrelmin(v, mode="wrap")` with the default `order=1` and the
default comparator `np.less`: the indices whose value is strictly below both
circular neighbours (`np.take` with `mode="wrap"` wraps the neighbour
indices around the ends).  NaN comparisons are false, so NaN entries never
qualify. -/
def argrelmin (v : List FV) : List ℕ :=
  (List.range v.length).filter (fun i =>
    fvLt (v.getD i none) (v.getD ((i + v.length - 1) % v.length) none) &&
    fvLt (v.getD i none) (v.getD ((i + 1) % v.length) none))

/-- The solar-altitude column of one position: the altitude (degrees) of the
sun at each grid instant, as produced by the external ephemeris `eph`
(astropy `get_sun` + `transform_to(AltAz)` in the source). -/
def altCol (eph : Position → ℚ → FV) (grid : List ℚ) (p : Position) :
    List FV :=
  grid.map (eph p)

/-- The candidate minima of one position's column:
`argrelmin(a**2, axis=0, mode="wrap")` in the source. -/
def min_idx (col : List FV) : List ℕ :=
  argrelmin (col.map fvSq)

/-- The decreasing-slope test of the source:
`alt[min(j + 1, len(alt) - 1), i] - alt[max(j - 1, 0), i] < 0`, the indices
clamped at the grid boundaries.  For `j : ℕ` the truncated subtraction
`j - 1` equals `max (j - 1) 0` computed over the integers. -/
def slopeTest (col : List FV) (j : ℕ) : Bool :=
  fvLt (fvSub (col.getD (min (j + 1) (col.length - 1)) none)
              (col.getD (j - 1) none))
       (some 0)

/-- One position's sunset pick: the first candidate minimum (in time order)
that passes the decreasing-slope test, or `none` when no candidate does
(the source's `IndexError`-and-`continue` path). -/
def pickSunset (col : List FV) : Option ℕ :=
  ((min_idx col).filter (slopeTest col)).head?

/-- The `for i, idx in enumerate(min_idx)` loop of the source, carrying the
running position index: it collects the pairs (position index, winning grid
index) for the positions whose pick succeeds, in input order. -/
def sunsetLoop (s : ℕ) : List (List FV) → List (ℕ × ℕ)
  | [] => []
  | col :: rest =>
    match pickSunset col with
    | some j => (s, j) :: sunsetLoop (s + 1) rest
    | none => sunsetLoop (s + 1) rest

/-- The pairs `(good_i, sunset_idx)` accumulated by the source's loop. -/
def goodPairs (cols : List (List FV)) : List (ℕ × ℕ) :=
  sunsetLoop 0 cols

/-- The default timezone used only to state list lookups; the embedding of
`sunset_time` never actually consults it on a winning index in the `some`
branch, because that branch requires every winning index to be in bounds. -/
def tzDefault : Timezone := ⟨fun _ => 0⟩

/-- Shallow embedding of the notebook's `sunset_time(locs, time, n_time)`.
`eph` is the external ephemeris and `tzs` the notebook-global per-position
timezone table, which the source indexes with the position index
(`tzs[i]`).  The result is the pair `(good_i, sunsets)`, where the local
timestamps come from converting the UTC grid instant at the winning index
with the table entry of the position; `none` models the uncaught
`IndexError` raised when some winning position index is outside `tzs`. -/
def sunset_time (locs : List Position) (time : ℚ) (n_time : ℕ)
    (eph : Position → ℚ → FV) (tzs : List Timezone) :
    Option (List ℕ × List ℚ) :=
  let grid := time_grid time n_time
  let pairs := goodPairs (locs.map (altCol eph grid))
  if pairs.all (fun q => q.1 < tzs.length) then
    some (pairs.map Prod.fst,
          pairs.map (fun q => toLocal (tzs.getD q.1 tzDefault) (grid.getD q.2 0)))
  else none

/-- The candidate-set description of the spec (for comparison with
`min_idx`): index `i` is a candidate iff `value[i] <= value[(i-1+N) mod N]`
and `value[i] <= value[(i+1) mod N]`, where `value[i] = A[i]^2` and the
neighbours wrap; stated over finite (non-NaN) values. -/
def specLocalMinima (v : List ℚ) : List ℕ :=
  (List.range v.length).filter (fun i =>
    decide ((v.getD i 0) ^ 2 ≤ (v.getD ((i + v.length - 1) % v.length) 0) ^ 2) &&
    decide ((v.getD i 0) ^ 2 ≤ (v.getD ((i + 1) % v.length) 0) ^ 2))

/-- A concrete two-position batch used to instantiate the theorems below:
position 0 has missing (NaN) coordinates, position 1 is well-formed. -/
def probeLocs : List Position := [⟨none, none⟩, ⟨some 1, some 1⟩]

/-- A concrete ephemeris for the probe batch: NaN coordinates yield NaN
altitudes (as IEEE arithmetic propagates NaN through the astropy transform),
and any well-formed position follows a day profile that starts at altitude 3,
touches the horizon at hour 8 and then keeps sinking. -/
def probeEph : Position → ℚ → FV := fun p t =>
  match p.lat, p.lon with
  | some _, some _ =>
      if t ≤ 0 then some 3 else if t ≤ 8 then some 0
      else if t ≤ 16 then some (-2) else some (-3)
  | _, _ => none

/-- A concrete timezone table for the probe batch: entry 0 is UTC itself,
entry 1 a constant one-hour-ahead zone. -/
def probeTzs : List Timezone := [⟨fun _ => 0⟩, ⟨fun _ => 1⟩]

lemma probeGrid : time_grid 0 4 = [0, 8, 16, 24] := by
  norm_num [time_grid, linspace, List.range_succ]

lemma probeCol0 :
    altCol probeEph (time_grid 0 4) ⟨none, none⟩ = [none, none, none, none] := by
  rw [probeGrid]; rfl

lemma probeCol1 :
    altCol probeEph (time_grid 0 4) ⟨some 1, some 1⟩ =
      [some 3, some 0, some (-2), some (-3)] := by
  rw [probeGrid]
  norm_num [altCol, probeEph]

lemma probePick0 : pickSunset [none, none, none, none] = none := by
  norm_num [pickSunset, min_idx, argrelmin, fvSq, fvLt, List.range_succ,
    List.filter]

lemma probePick1 :
    pickSunset [some 3, some 0, some (-2), some (-3)] = some 1 := by
  norm_num [pickSunset, min_idx, argrelmin, slopeTest, fvSq, fvLt, fvSub,
    List.range_succ, List.filter]

lemma probeCols :
    probeLocs.map (altCol probeEph (time_grid 0 4)) =
      [[none, none, none, none], [some 3, some 0, some (-2), some (-3)]] := by
  simp [probeLocs, probeCol0, probeCol1]

lemma probePairs :
    goodPairs (probeLocs.map (altCol probeEph (time_grid 0 4))) = [(1, 1)] := by
  rw [probeCols]
  simp [goodPairs, sunsetLoop, probePick0, probePick1]

lemma probeEval :
    sunset_time probeLocs 0 4 probeEph probeTzs = some ([1], [9]) := by
  rw [sunset_time, probeCols]
  rw [show goodPairs [[none, none, none, none],
        [some 3, some 0, some (-2), some (-3)]] = [(1, 1)] by
    rw [← probeCols, probePairs]]
  rw [probeGrid]
  norm_num [probeTzs, toLocal]
  show (8 : ℚ) + 1 = 9
  norm_num

/-! ### List helpers -/

lemma getD_map_of_lt {α β : Type} (f : α → β) (dA : α) (dB : β) :
    ∀ (l : List α) (i : ℕ), i < l.length → (l.map f).getD i dB = f (l.getD i dA)
  | [], _, h => absurd h (by simp)
  | _ :: _, 0, _ => rfl
  | a :: l, i + 1, h => by
      simp only [List.map_cons, List.getD_cons_succ]
      exact getD_map_of_lt f dA dB l i (by simpa using h)

lemma fvLt_none_left (y : FV) : fvLt none y = false := by cases y <;> rfl

lemma fvLt_some_some (a b : ℚ) : fvLt (some a) (some b) = decide (a < b) := rfl

/-- Head of a filtered strictly increasing list of naturals: it is the least
member satisfying the predicate. -/
lemma head_filter_sorted (p : ℕ → Bool) :
    ∀ (l : List ℕ), l.Pairwise (· < ·) → ∀ j : ℕ,
      ((l.filter p).head? = some j ↔
        j ∈ l ∧ p j = true ∧ ∀ k ∈ l, p k = true → j ≤ k) := by
  intro l hl
  induction l with
  | nil => intro j; simp
  | cons a l ih =>
    have ha : ∀ b ∈ l, a < b := (List.pairwise_cons.mp hl).1
    have hl' : l.Pairwise (· < ·) := (List.pairwise_cons.mp hl).2
    intro j
    by_cases hpa : p a = true
    · rw [List.filter_cons_of_pos hpa]
      simp only [List.head?_cons, Option.some.injEq]
      constructor
      · rintro rfl
        refine ⟨List.mem_cons_self a l, hpa, ?_⟩
        intro k hk hpk
        rcases List.mem_cons.mp hk with rfl | hk
        · exact le_refl k
        · exact (ha k hk).le
      · rintro ⟨hj, hpj, hmin⟩
        rcases List.mem_cons.mp hj with rfl | hj
        · rfl
        · exact absurd (hmin a (List.mem_cons_self a l) hpa)
            (not_le.mpr (ha j hj))
    · rw [List.filter_cons_of_neg hpa]
      rw [ih hl' j]
      constructor
      · rintro ⟨hj, hpj, hmin⟩
        refine ⟨List.mem_cons_of_mem a hj, hpj, ?_⟩
        intro k hk hpk
        rcases List.mem_cons.mp hk with rfl | hk
        · exact absurd hpk hpa
        · exact hmin k hk hpk
      · rintro ⟨hj, hpj, hmin⟩
        rcases List.mem_cons.mp hj with rfl | hj
        · exact absurd hpj hpa
        · exact ⟨hj, hpj, fun k hk => hmin k (List.mem_cons_of_mem a hk)⟩

/-! ### Minima-search lemmas -/

lemma min_idx_pairwise (col : List FV) : (min_idx col).Pairwise (· < ·) :=
  (List.pairwise_lt_range _).filter _

lemma mem_min_idx_lt (col : List FV) (j : ℕ) (h : j ∈ min_idx col) :
    j < col.length := by
  unfold min_idx argrelmin at h
  rw [List.mem_filter, List.mem_range, List.length_map] at h
  exact h.1

lemma sq_col_getD (v : List ℚ) (k : ℕ) (h : k < v.length) :
    ((v.map some).map fvSq).getD k none = some ((v.getD k 0) ^ 2) := by
  rw [show (v.map some).map fvSq = v.map (fun a => some (a * a)) from by
    rw [List.map_map]; rfl]
  rw [getD_map_of_lt (fun a => some (a * a)) 0 none v k h, pow_two]

/-- Candidate membership for a column of finite values: exactly the strict
circular local minima of the squared signal. -/
lemma mem_min_idx_map_some (v : List ℚ) (i : ℕ) :
    i ∈ min_idx (v.map some) ↔
      i < v.length ∧
      (v.getD i 0) ^ 2 < (v.getD ((i + v.length - 1) % v.length) 0) ^ 2 ∧
      (v.getD i 0) ^ 2 < (v.getD ((i + 1) % v.length) 0) ^ 2 := by
  unfold min_idx argrelmin
  rw [List.mem_filter, List.mem_range]
  simp only [List.length_map, Bool.and_eq_true]
  constructor
  · rintro ⟨h1, h2, h3⟩
    have hn : 0 < v.length := lt_of_le_of_lt (Nat.zero_le i) h1
    rw [sq_col_getD v i h1, sq_col_getD v _ (Nat.mod_lt _ hn)] at h2
    rw [sq_col_getD v i h1, sq_col_getD v _ (Nat.mod_lt _ hn)] at h3
    rw [fvLt_some_some, decide_eq_true_eq] at h2 h3
    exact ⟨h1, h2, h3⟩
  · rintro ⟨h1, h2, h3⟩
    have hn : 0 < v.length := lt_of_le_of_lt (Nat.zero_le i) h1
    refine ⟨h1, ?_, ?_⟩
    · rw [sq_col_getD v i h1, sq_col_getD v _ (Nat.mod_lt _ hn),
        fvLt_some_some, decide_eq_true_eq]
      exact h2
    · rw [sq_col_getD v i h1, sq_col_getD v _ (Nat.mod_lt _ hn),
        fvLt_some_some, decide_eq_true_eq]
      exact h3

lemma slopeTest_map_some (v : List ℚ) (j : ℕ) (hj : j < v.length) :
    slopeTest (v.map some) j = true ↔
      v.getD (min (j + 1) (v.length - 1)) 0 - v.getD (j - 1) 0 < 0 := by
  have hn : 0 < v.length := lt_of_le_of_lt (Nat.zero_le j) hj
  have h1 : min (j + 1) (v.length - 1) < v.length :=
    lt_of_le_of_lt (min_le_right _ _) (Nat.sub_lt hn one_pos)
  have h2 : j - 1 < v.length := lt_of_le_of_lt (Nat.sub_le j 1) hj
  unfold slopeTest
  simp only [List.length_map]
  rw [getD_map_of_lt some 0 none v _ h1, getD_map_of_lt some 0 none v _ h2]
  show (decide (_ < (0 : ℚ))) = true ↔ _
  rw [decide_eq_true_eq]

/-! ### Loop lemmas -/

lemma sunsetLoop_mem (q : ℕ × ℕ) (cols : List (List FV)) :
    ∀ s : ℕ, q ∈ sunsetLoop s cols ↔
      ∃ k, k < cols.length ∧ q.1 = s + k ∧
        pickSunset (cols.getD k []) = some q.2 := by
  induction cols with
  | nil => intro s; simp [sunsetLoop]
  | cons col rest ih =>
    intro s
    rcases hp : pickSunset col with _ | j
    · rw [show sunsetLoop s (col :: rest) = sunsetLoop (s + 1) rest by
        rw [sunsetLoop, hp]]
      rw [ih (s + 1)]
      constructor
      · rintro ⟨k, hk, hq1, hq2⟩
        refine ⟨k + 1, by simpa using hk, by omega, ?_⟩
        simpa using hq2
      · rintro ⟨k, hk, hq1, hq2⟩
        cases k with
        | zero =>
          rw [List.getD_cons_zero, hp] at hq2
          exact absurd hq2 (by simp)
        | succ k =>
          refine ⟨k, by simpa using hk, by omega, ?_⟩
          simpa using hq2
    · rw [show sunsetLoop s (col :: rest) = (s, j) :: sunsetLoop (s + 1) rest by
        rw [sunsetLoop, hp]]
      rw [List.mem_cons, ih (s + 1)]
      constructor
      · rintro (rfl | ⟨k, hk, hq1, hq2⟩)
        · exact ⟨0, by simp, by omega, by simpa using hp⟩
        · refine ⟨k + 1, by simpa using hk, by omega, ?_⟩
          simpa using hq2
      · rintro ⟨k, hk, hq1, hq2⟩
        cases k with
        | zero =>
          left
          rw [List.getD_cons_zero, hp] at hq2
          obtain ⟨q1, q2⟩ := q
          simp only [Option.some.injEq] at hq2
          simp only [Prod.mk.injEq]
          exact ⟨by omega, hq2.symm⟩
        | succ k =>
          right
          refine ⟨k, by simpa using hk, by omega, ?_⟩
          simpa using hq2

lemma sunsetLoop_fst_pairwise (cols : List (List FV)) :
    ∀ s : ℕ, (sunsetLoop s cols).Pairwise (fun a b => a.1 < b.1) := by
  induction cols with
  | nil => intro s; simp [sunsetLoop]
  | cons col rest ih =>
    intro s
    rcases hp : pickSunset col with _ | j
    · rw [show sunsetLoop s (col :: rest) = sunsetLoop (s + 1) rest by
        rw [sunsetLoop, hp]]
      exact ih (s + 1)
    · rw [show sunsetLoop s (col :: rest) = (s, j) :: sunsetLoop (s + 1) rest by
        rw [sunsetLoop, hp]]
      refine List.pairwise_cons.mpr ⟨?_, ih (s + 1)⟩
      intro r hr
      obtain ⟨k, -, hq1, -⟩ := (sunsetLoop_mem r rest (s + 1)).mp hr
      show s < r.1
      omega

lemma goodPairs_mem (q : ℕ × ℕ) (cols : List (List FV)) :
    q ∈ goodPairs cols ↔
      q.1 < cols.length ∧ pickSunset (cols.getD q.1 []) = some q.2 := by
  rw [goodPairs, sunsetLoop_mem]
  constructor
  · rintro ⟨k, hk, hq1, hq2⟩
    have : q.1 = k := by omega
    rw [this]
    exact ⟨hk, hq2⟩
  · rintro ⟨hk, hq2⟩
    exact ⟨q.1, hk, by omega, hq2⟩

lemma goodPairs_fst_pairwise (cols : List (List FV)) :
    (goodPairs cols).Pairwise (fun a b => a.1 < b.1) :=
  sunsetLoop_fst_pairwise cols 0

/-- Unfolding of `sunset_time` into its two outcomes. -/
lemma sunset_time_some_iff (locs : List Position) (time : ℚ) (n_time : ℕ)
    (eph : Position → ℚ → FV) (tzs : List Timezone)
    (gis : List ℕ) (ts : List ℚ) :
    sunset_time locs time n_time eph tzs = some (gis, ts) ↔
      (goodPairs (locs.map (altCol eph (time_grid time n_time)))).all
        (fun q => decide (q.1 < tzs.length)) = true ∧
      gis = (goodPairs (locs.map (altCol eph (time_grid time n_time)))).map
        Prod.fst ∧
      ts = (goodPairs (locs.map (altCol eph (time_grid time n_time)))).map
        (fun q => toLocal (tzs.getD q.1 tzDefault)
          ((time_grid time n_time).getD q.2 0)) := by
  by_cases h : (goodPairs (locs.map (altCol eph (time_grid time n_time)))).all
      (fun q => decide (q.1 < tzs.length)) = true
  · rw [show sunset_time locs time n_time eph tzs =
        some ((goodPairs (locs.map (altCol eph (time_grid time n_time)))).map
          Prod.fst,
        (goodPairs (locs.map (altCol eph (time_grid time n_time)))).map
          (fun q => toLocal (tzs.getD q.1 tzDefault)
            ((time_grid time n_time).getD q.2 0))) by
      unfold sunset_time
      rw [if_pos h]]
    rw [Option.some.injEq, Prod.mk.injEq]
    constructor
    · rintro ⟨h1, h2⟩
      exact ⟨h, h1.symm, h2.symm⟩
    · rintro ⟨-, h1, h2⟩
      exact ⟨h1.symm, h2.symm⟩
  · rw [show sunset_time locs time n_time eph tzs = none by
      unfold sunset_time
      rw [if_neg h]]
    constructor
    · intro he
      exact absurd he (by simp)
    · rintro ⟨hall, -, -⟩
      exact absurd hall h

/-- A column that is entirely NaN yields no candidate at all: NaN entries
never pass the strict comparisons of the minima search. -/
lemma pickSunset_of_all_none (col : List FV) (h : ∀ x ∈ col, x = none) :
    pickSunset col = none := by
  have hmi : min_idx col = [] := by
    unfold min_idx argrelmin
    rw [List.filter_eq_nil_iff]
    intro i hi
    rw [List.mem_range, List.length_map] at hi
    have h1 : (col.map fvSq).getD i none = none := by
      rw [getD_map_of_lt fvSq none none col i hi]
      have hmem : col.getD i none ∈ col := by
        rw [List.getD_eq_getElem _ _ hi]
        exact List.getElem_mem hi
      rw [h _ hmem]
      rfl
    simp only [h1, fvLt_none_left, Bool.false_and]
    exact Bool.false_ne_true
  rw [pickSunset, hmi]
  rfl

/-- The column of a position whose every altitude is NaN. -/
lemma altCol_of_none (eph : Position → ℚ → FV) (grid : List ℚ) (p : Position)
    (h : ∀ t : ℚ, eph p t = none) :
    ∀ x ∈ altCol eph grid p, x = none := by
  intro x hx
  rw [altCol] at hx
  obtain ⟨t, -, rfl⟩ := List.mem_map.mp hx
  exact h t

/-! ### Time-grid lemmas -/

lemma time_grid_length (time : ℚ) (n_time : ℕ) :
    (time_grid time n_time).length = n_time := by
  unfold time_grid linspace
  by_cases h : n_time = 1 <;> simp [h]

lemma time_grid_getD (time : ℚ) (n_time : ℕ) (h : 2 ≤ n_time) (k : ℕ)
    (hk : k < n_time) :
    (time_grid time n_time).getD k 0 = time + 24 * k / ((n_time : ℚ) - 1) := by
  unfold time_grid linspace
  rw [if_neg (by omega), List.map_map]
  have hlen : k < (List.range n_time).length := by simpa using hk
  rw [getD_map_of_lt _ 0 0 _ k hlen, List.getD_eq_getElem _ _ hlen,
    List.getElem_range]
  show time + (0 + (24 - 0) * (k : ℚ) / ((n_time : ℚ) - 1)) = _
  ring

lemma time_grid_sorted (time : ℚ) (n_time : ℕ) (h : 2 ≤ n_time) :
    (time_grid time n_time).Pairwise (· < ·) := by
  unfold time_grid linspace
  rw [if_neg (by omega), List.map_map, List.pairwise_map]
  refine (List.pairwise_lt_range n_time).imp ?_
  intro a b hab
  show time + (0 + (24 - 0) * (a : ℚ) / ((n_time : ℚ) - 1)) <
    time + (0 + (24 - 0) * (b : ℚ) / ((n_time : ℚ) - 1))
  have hd : (0 : ℚ) < (n_time : ℚ) - 1 := by
    have h2 : (2 : ℚ) ≤ (n_time : ℚ) := by exact_mod_cast h
    linarith
  have hab' : (a : ℚ) < (b : ℚ) := by exact_mod_cast hab
  gcongr

/-! ### Claim theorems -/

/-- C1: for every altitude column and candidate index `j`, the routine
classifies `j` as sunset exactly when
`altitude[min(j+1, N-1)] - altitude[max(j-1, 0)] < 0` with the indices
clamped (not wrapped) at the grid boundaries, and among the candidates that
pass this decreasing-slope test it picks the first in time order (the
smallest grid index). -/
theorem pickSunset_first_decreasing (v : List ℚ) (j : ℕ) :
    pickSunset (v.map some) = some j ↔
      j ∈ min_idx (v.map some) ∧
      v.getD (min (j + 1) (v.length - 1)) 0 - v.getD (j - 1) 0 < 0 ∧
      ∀ k ∈ min_idx (v.map some),
        v.getD (min (k + 1) (v.length - 1)) 0 - v.getD (k - 1) 0 < 0 →
          j ≤ k := by
  rw [pickSunset,
    head_filter_sorted (slopeTest (v.map some)) (min_idx (v.map some))
      (min_idx_pairwise _) j]
  constructor
  · rintro ⟨hj, hs, hmin⟩
    have hjl : j < v.length := by
      have := mem_min_idx_lt _ _ hj
      rwa [List.length_map] at this
    refine ⟨hj, (slopeTest_map_some v j hjl).mp hs, fun k hk hks => ?_⟩
    have hkl : k < v.length := by
      have := mem_min_idx_lt _ _ hk
      rwa [List.length_map] at this
    exact hmin k hk ((slopeTest_map_some v k hkl).mpr hks)
  · rintro ⟨hj, hs, hmin⟩
    have hjl : j < v.length := by
      have := mem_min_idx_lt _ _ hj
      rwa [List.length_map] at this
    refine ⟨hj, (slopeTest_map_some v j hjl).mpr hs, fun k hk hks => ?_⟩
    have hkl : k < v.length := by
      have := mem_min_idx_lt _ _ hk
      rwa [List.length_map] at this
    exact hmin k hk ((slopeTest_map_some v k hkl).mp hks)

/-- C2 (counterexample): on the constant column `[0, 0, 0]` the non-strict
circular rule of the claim admits every index as a candidate, but scipy's
`argrelmin` (strict `np.less`) returns no candidate at all, so the candidate
set is not the non-strict local-minima set. -/
theorem min_idx_not_nonstrict :
    min_idx ([(0 : ℚ), 0, 0].map some) = [] ∧
    specLocalMinima [(0 : ℚ), 0, 0] = [0, 1, 2] := by
  constructor
  · norm_num [min_idx, argrelmin, fvSq, fvLt, List.range_succ, List.filter]
  · norm_num [specLocalMinima, List.range_succ, List.filter]

/-- C2 (amended): the candidate set found by the minima search over the
squared-altitude signal is exactly the set of circular local minima in the
STRICT sense: `i` is a candidate iff `value[i] < value[(i-1+N) mod N]` and
`value[i] < value[(i+1) mod N]` where `value[i] = A[i]^2`, with wrap-around
neighbours. -/
theorem min_idx_strict_circular (v : List ℚ) (i : ℕ) :
    i ∈ min_idx (v.map some) ↔
      i < v.length ∧
      (v.getD i 0) ^ 2 < (v.getD ((i + v.length - 1) % v.length) 0) ^ 2 ∧
      (v.getD i 0) ^ 2 < (v.getD ((i + 1) % v.length) 0) ^ 2 :=
  mem_min_idx_map_some v i

/-- C3 (counterexample): `np.linspace(0, 24, n)` includes both endpoints, so
with `n = 3` the grid on day 0 is `[0, 12, 24]`: its last sample lies exactly
24 hours after its first, i.e. the two distinct grid instants 0 and 24
represent the same time of day, contradicting the claim that no two grid
samples do. -/
theorem time_grid_endpoint_duplication :
    time_grid 0 3 = [0, 12, 24] ∧
    (time_grid 0 3).getD 2 0 - (time_grid 0 3).getD 0 0 = 24 := by
  have h : time_grid 0 3 = [0, 12, 24] := by
    norm_num [time_grid, linspace, List.range_succ]
  refine ⟨h, ?_⟩
  rw [h]
  norm_num

/-- C3 (amended): for `n_time ≥ 2` the grid is an ordered (strictly
increasing) sequence of exactly `n_time` evenly spaced UTC instants starting
at 00:00 UTC of the day, with spacing `24/(n_time - 1)` hours; it spans
exactly 24 hours INCLUSIVE of both endpoints, so the last sample is exactly
24 hours after the first and represents the same time of day. -/
theorem time_grid_spec (time : ℚ) (n_time : ℕ) (h : 2 ≤ n_time) :
    (time_grid time n_time).length = n_time ∧
    (∀ k, k < n_time →
      (time_grid time n_time).getD k 0 = time + 24 * k / ((n_time : ℚ) - 1)) ∧
    (time_grid time n_time).Pairwise (· < ·) ∧
    (time_grid time n_time).getD 0 0 = time ∧
    (time_grid time n_time).getD (n_time - 1) 0 = time + 24 := by
  refine ⟨time_grid_length time n_time,
    fun k hk => time_grid_getD time n_time h k hk,
    time_grid_sorted time n_time h, ?_, ?_⟩
  · rw [time_grid_getD time n_time h 0 (by omega)]
    norm_num
  · rw [time_grid_getD time n_time h (n_time - 1) (by omega)]
    have h1 : ((n_time - 1 : ℕ) : ℚ) = (n_time : ℚ) - 1 := by
      have h2 : (1 : ℕ) ≤ n_time := by omega
      push_cast [h2]
      ring
    have hd : ((n_time : ℚ) - 1) ≠ 0 := by
      have h2 : (2 : ℚ) ≤ (n_time : ℚ) := by exact_mod_cast h
      linarith
    rw [h1, mul_div_assoc, div_self hd, mul_one]

/-- Witness for C3 at `time = 0`, `n_time = 3`. -/
theorem time_grid_spec_witness : (time_grid 0 3).length = 3 :=
  (time_grid_spec 0 3 (by norm_num)).1

/-- C8: the routine is deterministic and stateless — two calls with equal
positions, day, grid size, ephemeris and timezone table return equal index
sequences and timestamps.  The embedding is a pure function of exactly these
inputs (the notebook-global `tzs` is passed explicitly), so no call mutates
its inputs or any shared state. -/
theorem sunset_time_deterministic (locs : List Position) (time : ℚ)
    (n_time : ℕ) (eph : Position → ℚ → FV) (tzs : List Timezone)
    (locs2 : List Position) (time2 : ℚ) (n_time2 : ℕ)
    (eph2 : Position → ℚ → FV) (tzs2 : List Timezone)
    (h1 : locs = locs2) (h2 : time = time2) (h3 : n_time = n_time2)
    (h4 : eph = eph2) (h5 : tzs = tzs2) :
    sunset_time locs time n_time eph tzs =
      sunset_time locs2 time2 n_time2 eph2 tzs2 := by
  rw [h1, h2, h3, h4, h5]

/-- Witness for C8 on the probe batch. -/
theorem sunset_time_deterministic_witness :
    sunset_time probeLocs 0 4 probeEph probeTzs =
      sunset_time probeLocs 0 4 probeEph probeTzs :=
  sunset_time_deterministic probeLocs 0 4 probeEph probeTzs
    probeLocs 0 4 probeEph probeTzs rfl rfl rfl rfl rfl

/-- C9: converting a UTC instant to local time in a timezone whose offset is
fixed at zero returns the instant unchanged. -/
theorem toLocal_utc_identity (tz : Timezone) (t : ℚ)
    (h : ∀ s : ℚ, tz.offsetAt s = 0) : toLocal tz t = t := by
  rw [toLocal, h t, add_zero]

/-- Witness for C9 at the constant-zero-offset zone and instant 5. -/
theorem toLocal_utc_identity_witness : toLocal ⟨fun _ => 0⟩ 5 = 5 :=
  toLocal_utc_identity ⟨fun _ => 0⟩ 5 (fun _ => rfl)

/-! ### Per-position access lemmas -/

lemma getD_mem_self {α : Type} (l : List α) (k : ℕ) (d : α)
    (h : k < l.length) : l.getD k d ∈ l := by
  rw [List.getD_eq_getElem _ _ h]
  exact List.getElem_mem h

lemma cols_getD (locs : List Position) (eph : Position → ℚ → FV)
    (grid : List ℚ) (i : ℕ) (h : i < locs.length) :
    (locs.map (altCol eph grid)).getD i [] =
      altCol eph grid (locs.getD i ⟨none, none⟩) :=
  getD_map_of_lt (altCol eph grid) ⟨none, none⟩ [] locs i h

lemma goodPairs_getD_spec (locs : List Position) (eph : Position → ℚ → FV)
    (grid : List ℚ) (k : ℕ)
    (hk : k < (goodPairs (locs.map (altCol eph grid))).length) :
    ((goodPairs (locs.map (altCol eph grid))).getD k (0, 0)).1 < locs.length ∧
    pickSunset (altCol eph grid
      (locs.getD ((goodPairs (locs.map (altCol eph grid))).getD k (0, 0)).1
        ⟨none, none⟩)) =
      some ((goodPairs (locs.map (altCol eph grid))).getD k (0, 0)).2 := by
  have hmem := getD_mem_self _ k (0, 0) hk
  obtain ⟨h1, h2⟩ := (goodPairs_mem _ _).mp hmem
  rw [List.length_map] at h1
  rw [cols_getD locs eph grid _ h1] at h2
  exact ⟨h1, h2⟩

/-- C6: the returned `(good_i, sunsets)` lists are element-for-element
aligned (equal lengths; the `k`-th timestamp is the one computed for the
`k`-th returned position index, at its own winning grid index), the index
sequence is strictly increasing (input order preserved), and every position
whose pick succeeds appears in the returned index list — one result pair per
valid position. -/
theorem sunset_time_ordered_aligned (locs : List Position) (time : ℚ)
    (n_time : ℕ) (eph : Position → ℚ → FV) (tzs : List Timezone)
    (gis : List ℕ) (ts : List ℚ)
    (h : sunset_time locs time n_time eph tzs = some (gis, ts)) :
    gis.Pairwise (· < ·) ∧
    gis.length = ts.length ∧
    (∀ k, k < gis.length →
      gis.getD k 0 < locs.length ∧
      pickSunset (altCol eph (time_grid time n_time)
          (locs.getD (gis.getD k 0) ⟨none, none⟩)) =
        some ((goodPairs (locs.map (altCol eph (time_grid time n_time)))).getD
          k (0, 0)).2 ∧
      ts.getD k 0 = toLocal (tzs.getD (gis.getD k 0) tzDefault)
        ((time_grid time n_time).getD
          ((goodPairs (locs.map (altCol eph (time_grid time n_time)))).getD
            k (0, 0)).2 0)) ∧
    (∀ i, i < locs.length →
      pickSunset (altCol eph (time_grid time n_time)
        (locs.getD i ⟨none, none⟩)) ≠ none → i ∈ gis) := by
  obtain ⟨-, hg, ht⟩ := (sunset_time_some_iff locs time n_time eph tzs
    gis ts).mp h
  refine ⟨?_, ?_, ?_, ?_⟩
  · rw [hg]
    exact List.pairwise_map.mpr (goodPairs_fst_pairwise _)
  · rw [hg, ht]
    simp only [List.length_map]
  · intro k hk
    have hk' : k < (goodPairs
        (locs.map (altCol eph (time_grid time n_time)))).length := by
      rw [hg, List.length_map] at hk
      exact hk
    have hgk : gis.getD k 0 =
        ((goodPairs (locs.map (altCol eph (time_grid time n_time)))).getD
          k (0, 0)).1 := by
      rw [hg]
      exact getD_map_of_lt Prod.fst (0, 0) 0 _ k hk'
    have htk : ts.getD k 0 = toLocal
        (tzs.getD ((goodPairs
          (locs.map (altCol eph (time_grid time n_time)))).getD k (0, 0)).1
          tzDefault)
        ((time_grid time n_time).getD
          ((goodPairs (locs.map (altCol eph (time_grid time n_time)))).getD
            k (0, 0)).2 0) := by
      rw [ht]
      exact getD_map_of_lt _ (0, 0) 0 _ k hk'
    obtain ⟨hlt, hpick⟩ :=
      goodPairs_getD_spec locs eph (time_grid time n_time) k hk'
    rw [hgk]
    exact ⟨hlt, hpick, htk⟩
  · intro i hi hpick
    rcases hx : pickSunset (altCol eph (time_grid time n_time)
        (locs.getD i ⟨none, none⟩)) with _ | j
    · exact absurd hx hpick
    · rw [hg]
      refine List.mem_map.mpr ⟨(i, j), ?_, rfl⟩
      refine (goodPairs_mem (i, j) _).mpr ⟨?_, ?_⟩
      · rw [List.length_map]
        exact hi
      · rw [cols_getD locs eph _ i hi]
        exact hx

/-- Witness for C6 on the probe batch: the returned index list `[1]` is
strictly increasing. -/
theorem sunset_time_ordered_aligned_witness :
    List.Pairwise (· < ·) ([1] : List ℕ) :=
  (sunset_time_ordered_aligned probeLocs 0 4 probeEph probeTzs [1] [9]
    probeEval).1

/-- C4: each returned timestamp is the UTC grid instant at that position's
winning grid index shifted by the offset of the timezone-table entry of the
position, with the offset evaluated AT that instant — an instant-dependent
(daylight-saving-aware) conversion, not a fixed shift. -/
theorem sunset_local_conversion (locs : List Position) (time : ℚ)
    (n_time : ℕ) (eph : Position → ℚ → FV) (tzs : List Timezone)
    (gis : List ℕ) (ts : List ℚ)
    (h : sunset_time locs time n_time eph tzs = some (gis, ts))
    (k : ℕ) (hk : k < gis.length) :
    pickSunset (altCol eph (time_grid time n_time)
        (locs.getD (gis.getD k 0) ⟨none, none⟩)) =
      some ((goodPairs (locs.map (altCol eph (time_grid time n_time)))).getD
        k (0, 0)).2 ∧
    ts.getD k 0 =
      (time_grid time n_time).getD
          ((goodPairs (locs.map (altCol eph (time_grid time n_time)))).getD
            k (0, 0)).2 0 +
        (tzs.getD (gis.getD k 0) tzDefault).offsetAt
          ((time_grid time n_time).getD
            ((goodPairs (locs.map (altCol eph (time_grid time n_time)))).getD
              k (0, 0)).2 0) := by
  obtain ⟨-, hg, ht⟩ := (sunset_time_some_iff locs time n_time eph tzs
    gis ts).mp h
  have hk' : k < (goodPairs
      (locs.map (altCol eph (time_grid time n_time)))).length := by
    rw [hg, List.length_map] at hk
    exact hk
  have hgk : gis.getD k 0 =
      ((goodPairs (locs.map (altCol eph (time_grid time n_time)))).getD
        k (0, 0)).1 := by
    rw [hg]
    exact getD_map_of_lt Prod.fst (0, 0) 0 _ k hk'
  have htk : ts.getD k 0 = toLocal
      (tzs.getD ((goodPairs
        (locs.map (altCol eph (time_grid time n_time)))).getD k (0, 0)).1
        tzDefault)
      ((time_grid time n_time).getD
        ((goodPairs (locs.map (altCol eph (time_grid time n_time)))).getD
          k (0, 0)).2 0) := by
    rw [ht]
    exact getD_map_of_lt _ (0, 0) 0 _ k hk'
  obtain ⟨hlt, hpick⟩ :=
    goodPairs_getD_spec locs eph (time_grid time n_time) k hk'
  rw [hgk]
  exact ⟨hpick, htk⟩

/-- Witness for C4 on the probe batch. -/
theorem sunset_local_conversion_witness :
    pickSunset (altCol probeEph (time_grid 0 4)
        (probeLocs.getD (([1] : List ℕ).getD 0 0) ⟨none, none⟩)) =
      some ((goodPairs (probeLocs.map (altCol probeEph (time_grid 0 4)))).getD
        0 (0, 0)).2 :=
  (sunset_local_conversion probeLocs 0 4 probeEph probeTzs [1] [9]
    probeEval 0 (by norm_num)).1

/-- C5 (counterexample): on the probe batch position 0 has no candidate at
all, and the complete returned value is `([1], [9])` — the skipped
position's index 0 appears nowhere in the output, so it is not "recorded
separately as skipped"; it is merely absent from the returned index list. -/
theorem skipped_not_recorded :
    sunset_time probeLocs 0 4 probeEph probeTzs = some ([1], [9]) ∧
    (0 : ℕ) ∉ ((sunset_time probeLocs 0 4 probeEph probeTzs).getD
      ([], [])).1 := by
  refine ⟨probeEval, ?_⟩
  rw [probeEval]
  norm_num

/-- C5 (amended): a position with no candidate minimum, or none passing the
decreasing-slope test, is excluded from the returned index list without
aborting the call (the call still returns the other positions' results); no
explicit record of the skipped index is produced. -/
theorem skipped_position_excluded (locs : List Position) (time : ℚ)
    (n_time : ℕ) (eph : Position → ℚ → FV) (tzs : List Timezone)
    (i : ℕ) (gis : List ℕ) (ts : List ℚ)
    (hskip : pickSunset (altCol eph (time_grid time n_time)
      (locs.getD i ⟨none, none⟩)) = none)
    (h : sunset_time locs time n_time eph tzs = some (gis, ts)) :
    i ∉ gis := by
  obtain ⟨-, hg, -⟩ := (sunset_time_some_iff locs time n_time eph tzs
    gis ts).mp h
  rw [hg]
  intro hmem
  obtain ⟨q, hq, hq1⟩ := List.mem_map.mp hmem
  obtain ⟨hlt, hpick⟩ := (goodPairs_mem q _).mp hq
  rw [List.length_map] at hlt
  rw [cols_getD locs eph (time_grid time n_time) q.1 hlt, hq1, hskip] at hpick
  exact absurd hpick (by simp)

/-- Witness for C5 (amended) on the probe batch. -/
theorem skipped_position_excluded_witness : (0 : ℕ) ∉ ([1] : List ℕ) :=
  skipped_position_excluded probeLocs 0 4 probeEph probeTzs 0 [1] [9]
    (by rw [show probeLocs.getD 0 ⟨none, none⟩ = (⟨none, none⟩ : Position)
          from rfl, probeCol0]
        exact probePick0)
    probeEval

/-- The probe ephemeris propagates NaN coordinates to NaN altitudes. -/
lemma probeEph_nan (p : Position) (hp : p.lat = none ∨ p.lon = none)
    (t : ℚ) : probeEph p t = none := by
  obtain ⟨pl, plon⟩ := p
  rcases hp with h | h
  · have h' : pl = none := h
    subst h'
    cases plon <;> rfl
  · have h' : plon = none := h
    subst h'
    cases pl <;> rfl

/-- C7: if one position's coordinates are missing/NaN (so the ephemeris,
which propagates NaN, gives its whole altitude column as NaN), that position
yields no qualifying sunset candidate and is excluded from the output, while
every other position of the batch is processed and returned exactly
according to its own pick. -/
theorem nan_position_isolated (locs : List Position) (time : ℚ)
    (n_time : ℕ) (eph : Position → ℚ → FV) (tzs : List Timezone) (k : ℕ)
    (gis : List ℕ) (ts : List ℚ)
    (hnan : (locs.getD k ⟨none, none⟩).lat = none ∨
      (locs.getD k ⟨none, none⟩).lon = none)
    (heph : ∀ p : Position, p.lat = none ∨ p.lon = none →
      ∀ t : ℚ, eph p t = none)
    (h : sunset_time locs time n_time eph tzs = some (gis, ts)) :
    k ∉ gis ∧
    ∀ i, i < locs.length → i ≠ k →
      (i ∈ gis ↔ pickSunset (altCol eph (time_grid time n_time)
        (locs.getD i ⟨none, none⟩)) ≠ none) := by
  obtain ⟨-, hg, -⟩ := (sunset_time_some_iff locs time n_time eph tzs
    gis ts).mp h
  have hskipk : pickSunset (altCol eph (time_grid time n_time)
      (locs.getD k ⟨none, none⟩)) = none :=
    pickSunset_of_all_none _
      (altCol_of_none eph _ _ (heph _ hnan))
  constructor
  · rw [hg]
    intro hmem
    obtain ⟨q, hq, hq1⟩ := List.mem_map.mp hmem
    obtain ⟨hlt, hpick⟩ := (goodPairs_mem q _).mp hq
    rw [List.length_map] at hlt
    rw [cols_getD locs eph (time_grid time n_time) q.1 hlt, hq1, hskipk]
      at hpick
    exact absurd hpick (by simp)
  · intro i hi _
    constructor
    · intro hmem
      rw [hg] at hmem
      obtain ⟨q, hq, hq1⟩ := List.mem_map.mp hmem
      obtain ⟨hlt, hpick⟩ := (goodPairs_mem q _).mp hq
      rw [List.length_map] at hlt
      rw [cols_getD locs eph (time_grid time n_time) q.1 hlt, hq1] at hpick
      rw [hpick]
      simp
    · intro hpick
      rcases hx : pickSunset (altCol eph (time_grid time n_time)
          (locs.getD i ⟨none, none⟩)) with _ | j
      · exact absurd hx hpick
      · rw [hg]
        refine List.mem_map.mpr ⟨(i, j), ?_, rfl⟩
        refine (goodPairs_mem (i, j) _).mpr ⟨?_, ?_⟩
        · rw [List.length_map]
          exact hi
        · rw [cols_getD locs eph _ i hi]
          exact hx

/-- Witness for C7 on the probe batch: the NaN position 0 is excluded. -/
theorem nan_position_isolated_witness : (0 : ℕ) ∉ ([1] : List ℕ) :=
  (nan_position_isolated probeLocs 0 4 probeEph probeTzs 0 [1] [9]
    (Or.inl rfl) probeEph_nan probeEval).1

/-- C10: the timezone applied to a winning position is looked up by POSITION
INDEX in the passed (notebook-global) table `tzs`, not taken from the
location itself: (a) if some winning index is outside the table the whole
call fails (uncaught `IndexError`, modelled as `none`); (b) if all winning
indices are in bounds, the result converts each winning instant with
`tzs[i]` for the winning position index `i`; (c) only the table entries at
the winning indices matter — swapping in any equally long table that agrees
there (however misaligned with the locations' true zones) silently yields
the same result. -/
theorem tz_by_position_index (locs : List Position) (time : ℚ)
    (n_time : ℕ) (eph : Position → ℚ → FV) (tzs : List Timezone) :
    ((goodPairs (locs.map (altCol eph (time_grid time n_time)))).all
        (fun q => decide (q.1 < tzs.length)) = false →
      sunset_time locs time n_time eph tzs = none) ∧
    ((goodPairs (locs.map (altCol eph (time_grid time n_time)))).all
        (fun q => decide (q.1 < tzs.length)) = true →
      sunset_time locs time n_time eph tzs =
        some ((goodPairs (locs.map (altCol eph (time_grid time n_time)))).map
            Prod.fst,
          (goodPairs (locs.map (altCol eph (time_grid time n_time)))).map
            (fun q => toLocal (tzs.getD q.1 tzDefault)
              ((time_grid time n_time).getD q.2 0)))) ∧
    (∀ tzs2 : List Timezone, tzs2.length = tzs.length →
      (∀ q ∈ goodPairs (locs.map (altCol eph (time_grid time n_time))),
        tzs2.getD q.1 tzDefault = tzs.getD q.1 tzDefault) →
      sunset_time locs time n_time eph tzs2 =
        sunset_time locs time n_time eph tzs) := by
  refine ⟨?_, ?_, ?_⟩
  · intro hfalse
    unfold sunset_time
    rw [if_neg (by rw [hfalse]; exact Bool.false_ne_true)]
  · intro htrue
    unfold sunset_time
    rw [if_pos htrue]
  · intro tzs2 hlen hagree
    unfold sunset_time
    rw [hlen]
    by_cases hall : (goodPairs
        (locs.map (altCol eph (time_grid time n_time)))).all
        (fun q => decide (q.1 < tzs.length)) = true
    · rw [if_pos hall, if_pos hall]
      refine congrArg some ?_
      refine congrArg (Prod.mk _) ?_
      exact List.map_congr_left (fun q hq => by rw [hagree q hq])
    · rw [if_neg hall, if_neg hall]

/-- Witness for C10 on the probe batch with an empty timezone table: the
winning index 1 is out of bounds and the call fails. -/
theorem tz_by_position_index_witness :
    sunset_time probeLocs 0 4 probeEph [] = none :=
  (tz_by_position_index probeLocs 0 4 probeEph []).1
    (by rw [probePairs]; rfl)
